import Mathlib

/-!
Verification development for the screenshot-scheduler repository.

The model is a shallow embedding of the scheduling, registry and HTTP-facade
logic of `src/schedule-screenshot.js` and `src/server.js`.  Wall-clock
timestamps are modelled as `Int` (milliseconds since the epoch, the value of
`Date.getTime()`); JavaScript `Date` subtraction on such values is integer
subtraction.  Timer semantics (setInterval / setTimeout / node-schedule) are
idealised: an armed timer fires at its scheduled instant, a cleared timer
never fires; this is the standard event-trace semantics used to state the
timing claims.
-/

namespace ScreenshotScheduler

/-! ## Dual-Timer Guard (`scheduleWithPeriodicChecks`, schedule-screenshot.js 243-305)

The guard arms two mechanisms for one target date:
* a 1-second polling interval whose callback fires when
  `now >= earlyStartTime && !hasExecuted` (line 265),
* a single backup `setTimeout` scheduled for `earlyStartTime - armTime`
  milliseconds, registered only when that delta is positive (lines 285-303),
  whose callback fires when `!hasExecuted` (line 288).
Both set `hasExecuted` and clear the interval before running the capture.
-/

/-- `PROCESS_DURATION_MS` (line 247): the fixed pre-warm lead, 15000 ms. -/
def PROCESS_DURATION_MS : Int := 15000

/-- `checkInterval` (line 250): the polling period of the interval mechanism. -/
def checkInterval : Int := 1000

/-- `earlyStartTime` (line 248): `targetDate.getTime() - PROCESS_DURATION_MS`. -/
def earlyStartTime (target : Int) : Int := target - PROCESS_DURATION_MS

/-- Mutable state of one armed guard: the `hasExecuted` flag (line 251),
whether the interval is still registered (`clearInterval` not yet called),
whether the backup timeout is still pending, and how many times the fire
callback (`takeScreenshotAtExactTime`) has been invoked. -/
structure GuardState where
  hasExecuted : Bool
  intervalActive : Bool
  timeoutPending : Bool
  fireCount : Nat
deriving Repr, DecidableEq

/-- State just after `scheduleWithPeriodicChecks` returns, arming at time
`armTime`: flag clear, interval registered, backup timeout registered iff
`earlyStartTime - armTime > 0` (line 286), no fire yet. -/
def initGuard (armTime target : Int) : GuardState :=
  { hasExecuted := false
    intervalActive := true
    timeoutPending := decide (0 < earlyStartTime target - armTime)
    fireCount := 0 }

/-- An event delivered to the guard: one tick of the polling interval
observing wall-clock time `now`, or the backup timeout firing. -/
inductive GuardEvent where
  | tick (now : Int)
  | timeout
deriving Repr, DecidableEq

/-- One callback invocation.  A tick runs only while the interval is
registered and fires when `now >= earlyStartTime && !hasExecuted`
(line 265); the timeout callback runs only if still pending and fires when
`!hasExecuted` (line 288).  Firing sets `hasExecuted` and clears the
interval (lines 266-267 and 290-291). -/
def guardStep (target : Int) (s : GuardState) : GuardEvent → GuardState
  | .tick now =>
      if s.intervalActive then
        if earlyStartTime target ≤ now ∧ s.hasExecuted = false then
          { s with hasExecuted := true, intervalActive := false,
                   fireCount := s.fireCount + 1 }
        else s
      else s
  | .timeout =>
      if s.timeoutPending then
        if s.hasExecuted = false then
          { s with hasExecuted := true, intervalActive := false,
                   timeoutPending := false, fireCount := s.fireCount + 1 }
        else { s with timeoutPending := false }
      else s

/-- Run the guard over a sequence of delivered events. -/
def guardRun (target : Int) (s : GuardState) (events : List GuardEvent) : GuardState :=
  events.foldl (guardStep target) s

/-- Invariant tying the `hasExecuted` flag to the number of fires: a cleared
interval implies the flag is set, and the flag is set exactly when the
callback has run once. -/
def GuardInv (s : GuardState) : Prop :=
  (s.intervalActive = false → s.hasExecuted = true) ∧
  (s.hasExecuted = true ↔ s.fireCount = 1) ∧
  s.fireCount ≤ 1

lemma guardInv_init (armTime target : Int) : GuardInv (initGuard armTime target) := by
  refine ⟨?_, ?_, ?_⟩ <;> simp [initGuard, GuardInv]

lemma guardInv_step (target : Int) (s : GuardState) (e : GuardEvent)
    (h : GuardInv s) : GuardInv (guardStep target s e) := by
  obtain ⟨h1, h2, h3⟩ := h
  cases e with
  | tick now =>
      simp only [guardStep]
      split_ifs with hact hfire
      · have hz : s.fireCount = 0 := by
          have : s.fireCount ≠ 1 := fun hc => by simp [h2.mpr hc] at hfire
          omega
        exact ⟨fun _ => rfl, by simp [hz], by simp [hz]⟩
      · exact ⟨h1, h2, h3⟩
      · exact ⟨h1, h2, h3⟩
  | timeout =>
      simp only [guardStep]
      split_ifs with hp hfire
      · have hz : s.fireCount = 0 := by
          have : s.fireCount ≠ 1 := fun hc => by simp [h2.mpr hc] at hfire
          omega
        exact ⟨fun _ => rfl, by simp [hz], by simp [hz]⟩
      · exact ⟨h1, h2, h3⟩
      · exact ⟨h1, h2, h3⟩

lemma guardInv_step_fired (target : Int) (s : GuardState) (e : GuardEvent)
    (h : GuardInv s) (hf : s.fireCount = 1) :
    (guardStep target s e).fireCount = 1 := by
  obtain ⟨h1, h2, h3⟩ := h
  have hex : s.hasExecuted = true := h2.mpr hf
  cases e with
  | tick now =>
      simp only [guardStep]
      split_ifs with hact hfire
      · exact absurd hfire.2 (by simp [hex])
      · exact hf
      · exact hf
  | timeout =>
      simp only [guardStep]
      split_ifs with hp hfire
      · exact absurd hfire (by simp [hex])
      · exact hf
      · exact hf

lemma guardInv_step_trigger (target : Int) (s : GuardState) (now : Int)
    (h : GuardInv s) (hnow : earlyStartTime target ≤ now) :
    (guardStep target s (.tick now)).fireCount = 1 := by
  obtain ⟨h1, h2, h3⟩ := h
  by_cases hex : s.hasExecuted = true
  · exact guardInv_step_fired target s _ ⟨h1, h2, h3⟩ (h2.mp hex)
  · have hact : s.intervalActive = true := by
      by_contra hc
      exact hex (h1 (by simpa using hc))
    have hz : s.fireCount = 0 := by
      have : s.fireCount ≠ 1 := fun hc => hex (h2.mpr hc)
      omega
    simp only [guardStep, hact, if_true]
    rw [if_pos ⟨hnow, by simpa using hex⟩]
    simp [hz]

lemma guardRun_inv (target : Int) (events : List GuardEvent) (s : GuardState)
    (h : GuardInv s) : GuardInv (guardRun target s events) := by
  induction events generalizing s with
  | nil => exact h
  | cons e es ih => exact ih _ (guardInv_step target s e h)

lemma guardRun_fired (target : Int) (events : List GuardEvent) (s : GuardState)
    (h : GuardInv s) (hf : s.fireCount = 1) :
    (guardRun target s events).fireCount = 1 := by
  induction events generalizing s with
  | nil => exact hf
  | cons e es ih =>
      exact ih _ (guardInv_step target s e h) (guardInv_step_fired target s e h hf)

lemma guardRun_tick_trigger (target : Int) (events : List GuardEvent) (s : GuardState)
    (h : GuardInv s) (now : Int) (hmem : GuardEvent.tick now ∈ events)
    (hnow : earlyStartTime target ≤ now) :
    (guardRun target s events).fireCount = 1 := by
  induction events generalizing s with
  | nil => cases hmem
  | cons e es ih =>
      rcases List.mem_cons.mp hmem with he | he
      · subst he
        exact guardRun_fired target es _ (guardInv_step target s _ h)
          (guardInv_step_trigger target s now h hnow)
      · exact ih _ (guardInv_step target s e h) he

lemma guardRun_timeout_trigger (target : Int) (events : List GuardEvent) (s : GuardState)
    (h : GuardInv s) (hp : s.timeoutPending = true ∨ s.fireCount = 1)
    (hmem : GuardEvent.timeout ∈ events) :
    (guardRun target s events).fireCount = 1 := by
  induction events generalizing s with
  | nil => cases hmem
  | cons e es ih =>
      rcases hp with hp | hp
      · rcases List.mem_cons.mp hmem with he | he
        · subst he
          by_cases hex : s.hasExecuted = true
          · exact guardRun_fired target es _ (guardInv_step target s _ h)
              (guardInv_step_fired target s _ h (h.2.1.mp hex))
          · have hz : s.fireCount = 0 := by
              have h3 := h.2.2
              have : s.fireCount ≠ 1 := fun hc => hex (h.2.1.mpr hc)
              omega
            have hstep : (guardStep target s .timeout).fireCount = 1 := by
              simp only [guardStep, hp, if_true]
              rw [if_pos (by simpa using hex)]
              simp [hz]
            exact guardRun_fired target es _ (guardInv_step target s _ h) hstep
        · refine ih _ (guardInv_step target s e h) ?_ he
          cases e with
          | tick now =>
              simp only [guardStep]
              split_ifs with hact hfire
              · exact Or.inl hp
              · exact Or.inl hp
              · exact Or.inl hp
          | timeout =>
              by_cases hex : s.hasExecuted = true
              · exact Or.inr (guardInv_step_fired target s _ h (h.2.1.mp hex))
              · have hz : s.fireCount = 0 := by
                  have h3 := h.2.2
                  have : s.fireCount ≠ 1 := fun hc => hex (h.2.1.mpr hc)
                  omega
                refine Or.inr ?_
                simp only [guardStep, hp, if_true]
                rw [if_pos (by simpa using hex)]
                simp [hz]
      · exact guardRun_fired target (e :: es) s h hp

/-- **C1**: for any arming time and target, over every sequence of timer
events the guard's fire callback runs at most once; and as soon as the trace
contains a triggering event — a poll tick observing a time at or past the
lead instant, or the backup timeout firing while registered — the callback
has run exactly once.  Whichever mechanism passes the `hasExecuted` guard
first wins; the other is cancelled or ignored. -/
theorem guard_fires_exactly_once (armTime target : Int) (events : List GuardEvent)
    (htrig : (∃ now, GuardEvent.tick now ∈ events ∧ earlyStartTime target ≤ now) ∨
      ((initGuard armTime target).timeoutPending = true ∧ GuardEvent.timeout ∈ events)) :
    (guardRun target (initGuard armTime target) events).fireCount = 1 ∧
    ∀ evs : List GuardEvent, (guardRun target (initGuard armTime target) evs).fireCount ≤ 1 := by
  constructor
  · rcases htrig with ⟨now, hmem, hnow⟩ | ⟨hp, hmem⟩
    · exact guardRun_tick_trigger target events _ (guardInv_init armTime target) now hmem hnow
    · exact guardRun_timeout_trigger target events _ (guardInv_init armTime target)
        (Or.inl hp) hmem
  · intro evs
    exact (guardRun_inv target evs _ (guardInv_init armTime target)).2.2

/-- Witness for `guard_fires_exactly_once`: target 20000 armed at time 0
(lead instant 5000); the polling tick at 5000 races the backup timeout, the
tick wins, the later timeout is ignored: exactly one fire. -/
theorem guard_fires_exactly_once_witness :
    (guardRun 20000 (initGuard 0 20000)
      [.tick 4000, .tick 5000, .timeout, .tick 6000]).fireCount = 1 :=
  (guard_fires_exactly_once 0 20000 [.tick 4000, .tick 5000, .timeout, .tick 6000]
    (Or.inl ⟨5000, by decide, by decide⟩)).1

/-! ## When the pre-warm actually starts (C5)

Under ideal timer semantics the poll ticks occur at `armTime + 1000·(k+1)`
and the backup timeout (when registered, line 286) fires at exactly
`earlyStartTime`.  The guard fires at the earliest instant at which either
mechanism's firing condition holds. -/

/-- The backup timeout is registered iff `earlyStartTime - new Date() > 0`
at arming (line 286). -/
def timeoutRegistered (armTime target : Int) : Bool :=
  decide (0 < earlyStartTime target - armTime)

/-- Instant of the k-th poll tick after arming: `setInterval` with period
`checkInterval` (line 253) first runs its callback one period after arming. -/
def tickTime (armTime : Int) (k : Nat) : Int :=
  armTime + checkInterval * ((k : Int) + 1)

/-- `t` is an instant at which one of the two mechanisms passes its firing
condition: the backup timeout fires at `earlyStartTime` when registered, and
a poll tick fires when it observes `now >= earlyStartTime` (line 265). -/
def TriggerTime (armTime target t : Int) : Prop :=
  (timeoutRegistered armTime target = true ∧ t = earlyStartTime target) ∨
  (∃ k : Nat, t = tickTime armTime k ∧ earlyStartTime target ≤ t)

/-- Pre-warm begins at `t`: `t` is a trigger instant and no trigger instant
precedes it (the `hasExecuted` flag lets only the first one through). -/
def FiresAt (armTime target t : Int) : Prop :=
  TriggerTime armTime target t ∧ ∀ u, TriggerTime armTime target u → t ≤ u

/-- **C5 counterexample**: arming at time 0 with target 15000, the lead
instant `T - 15000` is 0, which is not strictly in the future, so no backup
timeout is registered; the first poll tick at 1000 starts the pre-warm —
strictly later than `T - 15000`.  The claim "begins at T - 15000, never
later" fails. -/
theorem prewarm_start_counterexample :
    FiresAt 0 15000 1000 ∧ ¬(1000 ≤ earlyStartTime 15000) := by
  refine ⟨⟨Or.inr ⟨0, by decide, by decide⟩, ?_⟩, by decide⟩
  intro u hu
  rcases hu with ⟨hreg, _⟩ | ⟨k, hk, _⟩
  · exact absurd hreg (by decide)
  · subst hk
    simp only [tickTime, checkInterval]
    omega

/-- **C5 (amended)**: the pre-warm never begins *earlier* than
`T - 15000`; when the guard is armed strictly before `T - 15000` it begins
exactly at `T - 15000`; when armed at or after `T - 15000` it begins at the
first poll tick, one polling period after arming (hence strictly later than
`T - 15000`). -/
theorem prewarm_start_amended (armTime target t : Int)
    (hfire : FiresAt armTime target t) :
    earlyStartTime target ≤ t ∧
    (armTime < earlyStartTime target → t = earlyStartTime target) ∧
    (earlyStartTime target ≤ armTime → t = armTime + checkInterval) := by
  obtain ⟨htrig, hmin⟩ := hfire
  have hle : earlyStartTime target ≤ t := by
    rcases htrig with ⟨_, ht⟩ | ⟨k, _, ht⟩
    · omega
    · exact ht
  refine ⟨hle, ?_, ?_⟩
  · intro harm
    have hreg : timeoutRegistered armTime target = true := by
      simp only [timeoutRegistered, decide_eq_true_eq]
      omega
    have := hmin (earlyStartTime target) (Or.inl ⟨hreg, rfl⟩)
    omega
  · intro harm
    have htick : TriggerTime armTime target (tickTime armTime 0) := by
      refine Or.inr ⟨0, rfl, ?_⟩
      simp only [tickTime, checkInterval]
      omega
    have hub := hmin _ htick
    have hlb : armTime + checkInterval ≤ t := by
      rcases htrig with ⟨hreg, _⟩ | ⟨k, ht, _⟩
      · simp only [timeoutRegistered, decide_eq_true_eq] at hreg
        omega
      · subst ht
        simp only [tickTime, checkInterval]
        omega
    simp only [tickTime, checkInterval] at hub hlb ⊢
    omega

/-- Witness for `prewarm_start_amended`: arming at 0 for target 20000, the
backup timeout is registered and the pre-warm begins at exactly 5000, the
lead instant. -/
theorem prewarm_start_amended_witness :
    FiresAt 0 20000 5000 ∧ earlyStartTime 20000 ≤ 5000 ∧
      (0 < earlyStartTime 20000 → 5000 = earlyStartTime 20000) ∧
      (earlyStartTime 20000 ≤ 0 → 5000 = 0 + checkInterval) := by
  have hf : FiresAt 0 20000 5000 := by
    refine ⟨Or.inl ⟨by decide, by decide⟩, ?_⟩
    intro u hu
    rcases hu with ⟨_, hu⟩ | ⟨k, _, hu⟩
    · simp only [earlyStartTime, PROCESS_DURATION_MS] at hu
      omega
    · simp only [earlyStartTime, PROCESS_DURATION_MS] at hu
      omega
  exact ⟨hf, prewarm_start_amended 0 20000 5000 hf⟩

/-! ## The precision-critical wait (C4)

`takeScreenshotAtExactTime` (schedule-screenshot.js 415-422, identically
server.js 322-329): after the pre-warm phase the code computes
`msUntilTarget = targetDate - now` and, when positive, awaits a single
promise resolved by one `setTimeout(resolve, msUntilTarget)`; otherwise it
falls through to the capture immediately. -/

/-- `msUntilTarget` (line 417 / 324): remaining delay after pre-warm. -/
def msUntilTarget (target now : Int) : Int := target - now

/-- Duration of the single bounded wait executed before capturing
(lines 419-422 / 326-329): the full remaining delay when positive, no wait
otherwise. -/
def exactWaitMs (target now : Int) : Int :=
  if 0 < msUntilTarget target now then msUntilTarget target now else 0

/-- Instant at which the capture section is reached when pre-warm finished
at `now`, under ideal timer semantics. -/
def captureStart (target now : Int) : Int := now + exactWaitMs target now

/-- **C4**: if the target is still in the future when pre-warm completes,
the routine suspends once for exactly the remaining delay and reaches the
capture at the target instant; if the target has already passed, the wait is
skipped and the capture happens immediately. -/
theorem exact_time_wait (target now : Int) :
    (0 < target - now →
      exactWaitMs target now = target - now ∧ captureStart target now = target) ∧
    (target - now ≤ 0 →
      exactWaitMs target now = 0 ∧ captureStart target now = now) := by
  simp only [captureStart, exactWaitMs, msUntilTarget]
  constructor <;> intro h <;> split_ifs <;> constructor <;> omega

/-- Witness for `exact_time_wait`: pre-warm done 1000 ms early waits 1000 ms
and captures at the target; pre-warm overrunning by 1000 ms waits 0 ms and
captures at once. -/
theorem exact_time_wait_witness :
    (exactWaitMs 20000 19000 = 20000 - 19000 ∧ captureStart 20000 19000 = 20000) ∧
    (exactWaitMs 5000 6000 = 0 ∧ captureStart 5000 6000 = 6000) :=
  ⟨(exact_time_wait 20000 19000).1 (by decide),
   (exact_time_wait 5000 6000).2 (by decide)⟩

/-! ## Capture results and the error boundary (C7)

The server variant's routines (`takeScreenshot`, server.js 47-230, and
`takeScreenshotAtExactTime`, server.js 235-405) end in a catch block that
closes the browser and returns `{ success: false, error: error.message }`
(lines 223-229 and 398-404).  The CLI variant's routines
(schedule-screenshot.js) end in a catch block that closes the browser and
then *rethrows* (`throw error`, lines 235 and 517); their caller
`scheduleWithPeriodicChecks` wraps the call in its own try/catch and calls
`process.exit(1)` on the caught exception (lines 272-280, 293-301). -/

/-- The structured result returned by the server-variant capture routines. -/
structure CaptureResult where
  success : Bool
  filepath : Option String := none
  filename : Option String := none
  error : Option String := none
deriving Repr, DecidableEq

/-- Boundary of `takeScreenshot` / `takeScreenshotAtExactTime` in server.js:
a normally-completing body yields `{success:true, filepath, filename}`
(lines 221 / 396); a thrown error is caught and converted to
`{success:false, error}` (lines 228 / 403). -/
def serverCaptureBoundary (body : Except String (String × String)) : CaptureResult :=
  match body with
  | .ok (fp, fn) => { success := true, filepath := some fp, filename := some fn }
  | .error e => { success := false, error := some e }

/-- Boundary of `takeScreenshot` / `takeScreenshotAtExactTime` in
schedule-screenshot.js: success returns the file path (lines 228 / 510); the
catch block closes the browser and rethrows (lines 230-236 / 512-518), so
the exception escapes the routine. -/
def cliCaptureBoundary (body : Except String String) : Except String String :=
  match body with
  | .ok fp => .ok fp
  | .error e => .error e

/-- The CLI guard layer's handling of the routine's outcome
(schedule-screenshot.js 272-280): exit 0 on success, and on a *caught
exception* exit 1 — it never inspects a `success` flag. -/
def cliGuardExitCode (r : Except String String) : Nat :=
  match r with
  | .ok _ => 0
  | .error _ => 1

/-- **C7 counterexample**: in the CLI variant a failing capture body is
rethrown unchanged by the routine boundary — the scheduler/guard layer
receives a raised exception (and maps it to exit code 1 via try/catch),
contradicting "never propagated as a raised exception". -/
theorem capture_error_boundary_counterexample :
    cliCaptureBoundary (.error "Navigation timeout") = .error "Navigation timeout" ∧
    cliGuardExitCode (cliCaptureBoundary (.error "Navigation timeout")) = 1 := by
  constructor <;> rfl

/-- **C7 (amended)**: in the server variant every capture error is caught at
the routine boundary and converted into a CaptureResult with `success =
false` carrying the error message, and `success` is `false` exactly on a
thrown body; in the CLI variant the routines rethrow the error after browser
cleanup and the guard layer catches the raw exception itself, exiting
non-zero. -/
theorem capture_error_boundary (e : String) (body : Except String (String × String)) :
    serverCaptureBoundary (.error e) =
      { success := false, error := some e } ∧
    ((serverCaptureBoundary body).success = false ↔ ∃ m, body = .error m) ∧
    cliCaptureBoundary (.error e) = .error e ∧
    cliGuardExitCode (cliCaptureBoundary (.error e)) = 1 := by
  refine ⟨rfl, ?_, rfl, rfl⟩
  cases body with
  | ok v => simp [serverCaptureBoundary]
  | error m => simp [serverCaptureBoundary]

/-! ## Standalone CLI argument handling (C9)

`main` in schedule-screenshot.js (lines 524-547): with no arguments or with
`--help` as the first argument it prints the usage text and calls
`process.exit(0)`; an unparseable timestamp exits 1; a past-or-present
timestamp exits 1; otherwise the guard is armed and the process keeps
running. -/

/-- Outcome of the CLI's argument handling. -/
inductive CliOutcome where
  | usage          -- prints usage, `process.exit(0)` (lines 528-532)
  | invalidFormat  -- `process.exit(1)` (lines 537-541)
  | pastTime       -- `process.exit(1)` (lines 543-547)
  | armed          -- `scheduleWithPeriodicChecks` called, service runs
deriving Repr, DecidableEq

/-- Exit code produced immediately by each outcome (`none` when the process
keeps running). -/
def cliExitCode : CliOutcome → Option Nat
  | .usage => some 0
  | .invalidFormat => some 1
  | .pastTime => some 1
  | .armed => none

/-- `main`'s argument handling, with `parse` standing for
`new Date(string).getTime()` (`none` = `NaN`) and `now` the current time:
`if (args.length === 0 || args[0] === '--help')` print usage and exit 0;
`isNaN` exit 1; `targetDate <= now` exit 1; otherwise arm. -/
def cliMain (args : List String) (parse : String → Option Int) (now : Int) : CliOutcome :=
  match args with
  | [] => .usage
  | a :: _ =>
      if a = "--help" then .usage
      else
        match parse a with
        | none => .invalidFormat
        | some target => if target ≤ now then .pastTime else .armed

/-- **C9**: invoking the CLI with zero arguments yields the usage outcome
with exit status 0, identical to passing `--help`, and is not treated as an
invalid-timestamp error (exit 1). -/
theorem cli_no_args_prints_usage (parse : String → Option Int) (now : Int) :
    cliMain [] parse now = .usage ∧
    cliExitCode (cliMain [] parse now) = some 0 ∧
    cliMain [] parse now = cliMain ["--help"] parse now ∧
    cliMain [] parse now ≠ .invalidFormat := by
  refine ⟨rfl, rfl, by simp [cliMain], by simp [cliMain]⟩

/-! ## Job registry and the HTTP facade (C2, C10, C3)

`scheduledJobs` (server.js line 30) is a `Map` from job id to a job-info
object.  `H` abstracts the node-schedule timer handle type; the `job` field
stores the value returned by `schedule.scheduleJob`, with `none` standing
for JavaScript `null` (which `scheduleJob` returns when it cannot schedule,
e.g. for a date already in the past). -/

/-- One value of the `scheduledJobs` map (server.js 473-479). -/
structure JobInfo (H : Type) where
  id : String
  datetime : Int
  recurring : Bool
  scheduled : Int
  job : Option H

/-- `scheduledJobs.set(key, v)`: a `Map` keeps at most one entry per key. -/
def mapSet {H : Type} (reg : List (String × JobInfo H)) (key : String)
    (v : JobInfo H) : List (String × JobInfo H) :=
  (key, v) :: reg.filter (fun p => p.1 != key)

/-- `scheduledJobs.delete(key)`. -/
def mapDelete {H : Type} (reg : List (String × JobInfo H)) (key : String) :
    List (String × JobInfo H) :=
  reg.filter (fun p => p.1 != key)

/-- Response of `POST /api/schedule` (server.js 420-491). -/
inductive ScheduleResp where
  | badRequest (msg : String)   -- `res.status(400).json({error: msg})`
  | serverError (msg : String)  -- `res.status(500).json({error: msg})`
  | ok (jobId : String) (scheduledFor : Int)
deriving Repr, DecidableEq

/-- Whether a response is an HTTP 400 client error. -/
def ScheduleResp.isBadRequest : ScheduleResp → Bool
  | .badRequest _ => true
  | _ => false

/-- The `POST /api/schedule` handler (server.js 420-491).  `reqDatetime`
models the request body's `datetime` field: `none` when absent or falsy,
`some none` when `new Date(datetime)` is `NaN`, `some (some t)` when it
parses to instant `t`.  `handle` is the value returned by
`schedule.scheduleJob(earlyStartTime, callback)` (line 448), `none` for
JavaScript `null`.  The handler: missing datetime → 400 (line 425);
unparseable → 400 (line 430); `targetDate <= new Date()` → 400 (line 434);
`!job` → 500 with no registry change (lines 467-470); otherwise the job
info, holding the handle, is inserted (lines 473-479) and 200 returned. -/
def postSchedule {H : Type} (reqDatetime : Option (Option Int)) (recurring : Bool)
    (now : Int) (jobId : String) (handle : Option H)
    (reg : List (String × JobInfo H)) : ScheduleResp × List (String × JobInfo H) :=
  match reqDatetime with
  | none => (.badRequest "datetime is required", reg)
  | some none => (.badRequest "Invalid datetime format", reg)
  | some (some target) =>
      if target ≤ now then (.badRequest "datetime must be in the future", reg)
      else
        match handle with
        | none => (.serverError "Failed to schedule job", reg)
        | some h =>
            (.ok jobId target,
              mapSet reg jobId
                { id := jobId, datetime := target, recurring := recurring,
                  scheduled := now, job := some h })

/-- **C2**: a schedule request whose datetime is missing, unparseable, or
not strictly in the future is answered with an HTTP 400 client error and
leaves the registry unchanged — no job is added. -/
theorem schedule_rejects_invalid {H : Type} (reqDatetime : Option (Option Int))
    (recurring : Bool) (now : Int) (jobId : String) (handle : Option H)
    (reg : List (String × JobInfo H))
    (hbad : reqDatetime = none ∨ reqDatetime = some none ∨
      ∃ t, reqDatetime = some (some t) ∧ t ≤ now) :
    (postSchedule reqDatetime recurring now jobId handle reg).1.isBadRequest = true ∧
    (postSchedule reqDatetime recurring now jobId handle reg).2 = reg := by
  rcases hbad with h | h | ⟨t, h, ht⟩ <;> subst h
  · exact ⟨rfl, rfl⟩
  · exact ⟨rfl, rfl⟩
  · simp only [postSchedule, if_pos ht]
    exact ⟨by trivial, by trivial⟩

/-- Witness for `schedule_rejects_invalid`: a request for instant 1000
arriving at time 5000 (already passed) is rejected with 400 and the registry
(one existing job) is untouched. -/
theorem schedule_rejects_invalid_witness :
    (postSchedule (H := Unit) (some (some 1000)) false 5000 "job-2" (some ())
        [("job-1", ⟨"job-1", 9000, false, 0, some ()⟩)]).1.isBadRequest = true ∧
    (postSchedule (H := Unit) (some (some 1000)) false 5000 "job-2" (some ())
        [("job-1", ⟨"job-1", 9000, false, 0, some ()⟩)]).2 =
      [("job-1", ⟨"job-1", 9000, false, 0, some ()⟩)] :=
  schedule_rejects_invalid (some (some 1000)) false 5000 "job-2" (some ())
    [("job-1", ⟨"job-1", 9000, false, 0, some ()⟩)]
    (Or.inr (Or.inr ⟨1000, rfl, by decide⟩))

/-- **C10**: the job-info object is inserted only after `scheduleJob`
returned a non-null handle: when timer creation fails the request is
answered 500 and the registry is unchanged; when it succeeds the inserted
entry stores that very handle; consequently, if every registry entry holds a
non-null handle before the request, every entry still does afterwards. -/
theorem registry_entries_hold_live_handles {H : Type}
    (reqDatetime : Option (Option Int)) (recurring : Bool) (now : Int)
    (jobId : String) (handle : Option H) (reg : List (String × JobInfo H))
    (hinv : ∀ p ∈ reg, (p.2).job ≠ none) :
    (handle = none →
      (postSchedule reqDatetime recurring now jobId handle reg).1.isBadRequest = true ∨
      (postSchedule reqDatetime recurring now jobId handle reg) =
        (.serverError "Failed to schedule job", reg)) ∧
    (∀ p ∈ (postSchedule reqDatetime recurring now jobId handle reg).2,
      (p.2).job ≠ none) ∧
    (∀ h t, handle = some h → reqDatetime = some (some t) → now < t →
      List.lookup jobId (postSchedule reqDatetime recurring now jobId handle reg).2 =
        some { id := jobId, datetime := t, recurring := recurring,
               scheduled := now, job := some h }) := by
  refine ⟨?_, ?_, ?_⟩
  · intro hn
    subst hn
    match reqDatetime with
    | none => exact Or.inl rfl
    | some none => exact Or.inl rfl
    | some (some target) =>
        by_cases ht : target ≤ now
        · simp only [postSchedule, if_pos ht]
          exact Or.inl rfl
        · simp only [postSchedule, if_neg ht]
          exact Or.inr (by trivial)
  · intro p hp
    match hd : reqDatetime with
    | none => exact hinv p (by simpa [postSchedule] using hp)
    | some none => exact hinv p (by simpa [postSchedule] using hp)
    | some (some target) =>
        by_cases ht : target ≤ now
        · simp only [postSchedule, if_pos ht] at hp
          exact hinv p hp
        · simp only [postSchedule, if_neg ht] at hp
          match handle with
          | none => exact hinv p hp
          | some h =>
              simp only [mapSet, List.mem_cons] at hp
              rcases hp with hp | hp
              · subst hp
                simp
              · exact hinv p (List.mem_of_mem_filter hp)
  · intro h t hh hd ht
    subst hh
    subst hd
    simp only [postSchedule, if_neg (not_le.mpr ht), mapSet]
    simp [List.lookup]

/-- Witness for `registry_entries_hold_live_handles`: scheduling for instant
20000 at time 0 with a live handle inserts the job holding that handle into
an initially empty registry. -/
theorem registry_entries_hold_live_handles_witness :
    ((some () = (none : Option Unit) →
      (postSchedule (H := Unit) (some (some 20000)) false 0 "job-1" (some ()) []).1.isBadRequest = true ∨
      (postSchedule (H := Unit) (some (some 20000)) false 0 "job-1" (some ()) []) =
        (.serverError "Failed to schedule job", [])) ∧
    (∀ p ∈ (postSchedule (H := Unit) (some (some 20000)) false 0 "job-1" (some ()) []).2,
      (p.2).job ≠ none) ∧
    (∀ h t, (some () : Option Unit) = some h → (some (some 20000) : Option (Option Int)) = some (some t) → 0 < t →
      List.lookup "job-1" (postSchedule (H := Unit) (some (some 20000)) false 0 "job-1" (some ()) []).2 =
        some { id := "job-1", datetime := t, recurring := false,
               scheduled := 0, job := some h })) :=
  registry_entries_hold_live_handles (some (some 20000)) false 0 "job-1" (some ()) []
    (by intro p hp; cases hp)

/-- Response of `DELETE /api/jobs/:jobId` (server.js 510-523). -/
inductive CancelResp where
  | ok        -- `res.json({success:true, ...})`
  | notFound  -- `res.status(404).json({error:'Job not found'})`
deriving Repr, DecidableEq

/-- The `DELETE /api/jobs/:jobId` handler (server.js 510-523):
`scheduledJobs.get(jobId)`; if absent, 404 with no side effect (lines
513-516); otherwise `jobInfo.job.cancel()` followed by
`scheduledJobs.delete(jobId)` (lines 519-520).  The third component lists
the timer handles on which `.cancel()` was invoked. -/
def deleteJobHandler {H : Type} (jobId : String)
    (reg : List (String × JobInfo H)) :
    CancelResp × List (String × JobInfo H) × List H :=
  match List.lookup jobId reg with
  | none => (.notFound, reg, [])
  | some info => (.ok, mapDelete reg jobId, info.job.toList)

lemma lookup_filter_bne {β : Type} (key : String) (l : List (String × β)) :
    List.lookup key (l.filter (fun p => p.1 != key)) = none := by
  induction l with
  | nil => rfl
  | cons p ps ih =>
      by_cases h : p.1 = key
      · simpa [List.filter_cons, h] using ih
      · have hb : (p.1 != key) = true := by simpa using h
        have hk : (key == p.1) = false := by
          simpa using fun hc => h hc.symm
        simp [List.filter_cons, hb, List.lookup, hk, ih]

/-- **C3**: cancelling a present job id invokes `.cancel()` on its stored
timer handle and removes the registry entry; cancelling an absent id returns
404 and changes nothing; in particular a second cancellation of the same id
finds the entry already removed and returns 404 rather than crashing. -/
theorem cancel_job_idempotent {H : Type} (jobId : String)
    (reg : List (String × JobInfo H)) :
    (List.lookup jobId reg = none →
      deleteJobHandler jobId reg = (.notFound, reg, [])) ∧
    (∀ info, List.lookup jobId reg = some info →
      (deleteJobHandler jobId reg).1 = .ok ∧
      (deleteJobHandler jobId reg).2.2 = info.job.toList ∧
      List.lookup jobId (deleteJobHandler jobId reg).2.1 = none ∧
      deleteJobHandler jobId (deleteJobHandler jobId reg).2.1 =
        (.notFound, (deleteJobHandler jobId reg).2.1, [])) := by
  constructor
  · intro h
    simp [deleteJobHandler, h]
  · intro info h
    have hdel : (deleteJobHandler jobId reg).2.1 = mapDelete reg jobId := by
      simp [deleteJobHandler, h]
    have hnone : List.lookup jobId (mapDelete reg jobId) = none :=
      lookup_filter_bne jobId reg
    refine ⟨by simp [deleteJobHandler, h], by simp [deleteJobHandler, h], ?_, ?_⟩
    · rw [hdel]; exact hnone
    · rw [hdel]
      simp [deleteJobHandler, hnone]

/-- Witness for `cancel_job_idempotent`: a one-job registry; deleting
"job-1" cancels its handle and empties the registry, deleting again returns
404; deleting the absent "job-9" is a 404 with no effect. -/
theorem cancel_job_idempotent_witness :
    ((deleteJobHandler (H := Unit) "job-1"
        [("job-1", ⟨"job-1", 9000, false, 0, some ()⟩)]).1 = .ok ∧
      (deleteJobHandler (H := Unit) "job-1"
        [("job-1", ⟨"job-1", 9000, false, 0, some ()⟩)]).2.2 =
        (Option.some ()).toList ∧
      List.lookup "job-1" (deleteJobHandler (H := Unit) "job-1"
        [("job-1", ⟨"job-1", 9000, false, 0, some ()⟩)]).2.1 = none ∧
      deleteJobHandler (H := Unit) "job-1"
        ((deleteJobHandler (H := Unit) "job-1"
          [("job-1", ⟨"job-1", 9000, false, 0, some ()⟩)]).2.1) =
        (.notFound,
          (deleteJobHandler (H := Unit) "job-1"
            [("job-1", ⟨"job-1", 9000, false, 0, some ()⟩)]).2.1, [])) ∧
    deleteJobHandler (H := Unit) "job-9"
        [("job-1", ⟨"job-1", 9000, false, 0, some ()⟩)] =
      (.notFound, [("job-1", ⟨"job-1", 9000, false, 0, some ()⟩)], []) :=
  ⟨(cancel_job_idempotent "job-1" [("job-1", ⟨"job-1", 9000, false, 0, some ()⟩)]).2
      ⟨"job-1", 9000, false, 0, some ()⟩ (by rfl),
   (cancel_job_idempotent "job-9" [("job-1", ⟨"job-1", 9000, false, 0, some ()⟩)]).1
      (by rfl)⟩

/-! ## GET /api/screenshots (C6)

server.js 528-552: when the output directory is missing the handler answers
`{screenshots: []}` (lines 530-532); otherwise it filters
`fs.readdirSync` results by `file.startsWith('screenshot-') &&
file.endsWith('.png')` (line 535), maps each to its filename, stat
birthtime and size (lines 536-544), and sorts with the comparator
`(a, b) => b.created - a.created` (line 545), i.e. descending creation
time. -/

/-- A directory entry: name plus the `fs.statSync` metadata used. -/
structure DirEntry where
  name : String
  size : Nat
  birthtime : Int
deriving Repr, DecidableEq

/-- An element of the response's `screenshots` array (server.js 538-543). -/
structure ScreenshotInfo where
  filename : String
  size : Nat
  created : Int
deriving Repr, DecidableEq

/-- The filename filter of line 535, on the underlying character lists. -/
def isScreenshotFile (name : String) : Bool :=
  List.isPrefixOf "screenshot-".data name.data &&
  List.isSuffixOf ".png".data name.data

/-- The `GET /api/screenshots` handler (server.js 528-552). -/
def listScreenshots (dirExists : Bool) (files : List DirEntry) :
    List ScreenshotInfo :=
  if dirExists then
    ((files.filter (fun f => isScreenshotFile f.name)).map
        (fun f => ⟨f.name, f.size, f.birthtime⟩)).mergeSort
      (fun a b => decide (b.created ≤ a.created))
  else []

/-- **C6**: `listScreenshots` returns the empty list when the output
directory does not exist, and otherwise returns exactly the entries whose
names match the screenshot pattern — each carrying its filename, size and
creation time — arranged in descending order of creation time. -/
theorem list_screenshots_spec (files : List DirEntry) :
    listScreenshots false files = [] ∧
    (listScreenshots true files).Perm
      ((files.filter (fun f => isScreenshotFile f.name)).map
        (fun f => ⟨f.name, f.size, f.birthtime⟩)) ∧
    (listScreenshots true files).Pairwise (fun a b => b.created ≤ a.created) := by
  refine ⟨rfl, ?_, ?_⟩
  · simpa [listScreenshots] using
      List.mergeSort_perm
        ((files.filter (fun f => isScreenshotFile f.name)).map
          (fun f => (⟨f.name, f.size, f.birthtime⟩ : ScreenshotInfo)))
        (fun a b => decide (b.created ≤ a.created))
  · have hs := @List.sorted_mergeSort ScreenshotInfo
      (fun a b : ScreenshotInfo => decide (b.created ≤ a.created))
      (fun a b c hab hbc => by
        simp only [decide_eq_true_eq] at *
        omega)
      (fun a b => by
        simp only [Bool.or_eq_true, decide_eq_true_eq]
        omega)
      ((files.filter (fun f => isScreenshotFile f.name)).map
        (fun f => (⟨f.name, f.size, f.birthtime⟩ : ScreenshotInfo)))
    simp only [listScreenshots, if_true]
    exact hs.imp (fun h => by simpa using h)

/-! ## GET /api/screenshot/:filename (C8)

server.js 582-595: the handler computes
`filepath = join(config.screenshotPath, filename)` (line 585) with the
`filename` route parameter, answers 404 when `fs.existsSync(filepath)` is
false (lines 587-589), and otherwise streams the file at `filepath`.  Node's
`path.join` concatenates its arguments with `/` and normalises the result:
empty and `.` segments are dropped and a `..` segment removes the preceding
segment (at the root of an absolute path it is simply dropped).  Paths are
modelled as the list of their segments (each a character list). -/

/-- Splitting a route parameter on `/`, as `path.join` treats its argument. -/
def splitSlash : List Char → List (List Char)
  | [] => [[]]
  | c :: cs =>
      if c = '/' then [] :: splitSlash cs
      else
        match splitSlash cs with
        | [] => [[c]]
        | seg :: rest => (c :: seg) :: rest

/-- `path.join` normalisation over an absolute path's segments. -/
def normSegments (segs : List (List Char)) : List (List Char) :=
  segs.foldl
    (fun acc seg =>
      if seg = [] ∨ seg = ['.'] then acc
      else if seg = ['.', '.'] then acc.dropLast
      else acc ++ [seg])
    []

/-- `join(config.screenshotPath, filename)` (server.js 585). -/
def joinPath (dir : List (List Char)) (filename : String) : List (List Char) :=
  normSegments (dir ++ splitSlash filename.data)

/-- Response of `GET /api/screenshot/:filename`. -/
inductive ServeResp where
  | notFound                          -- 404 (line 588)
  | sendFile (path : List (List Char)) -- `res.sendFile(filepath)` (line 591)
deriving DecidableEq

/-- The `GET /api/screenshot/:filename` handler (server.js 582-595), with
`existing` the set of paths for which `fs.existsSync` holds. -/
def getScreenshotHandler (dir : List (List Char))
    (existing : List (List (List Char))) (filename : String) : ServeResp :=
  let filepath := joinPath dir filename
  if existing.contains filepath then .sendFile filepath else .notFound

/-- A concrete output directory, `/Users/u/Desktop/screenshots`. -/
def demoDir : List (List Char) :=
  ["Users".data, "u".data, "Desktop".data, "screenshots".data]

/-- **C8 counterexample**: the route parameter `../secret.png` resolves to
`/Users/u/Desktop/secret.png`, outside the output directory, and when such
a file exists the handler streams it — resolution is *not* restricted to the
configured directory. -/
theorem screenshot_path_traversal_counterexample :
    joinPath demoDir "../secret.png" =
      ["Users".data, "u".data, "Desktop".data, "secret.png".data] ∧
    List.isPrefixOf demoDir (joinPath demoDir "../secret.png") = false ∧
    getScreenshotHandler demoDir
        [["Users".data, "u".data, "Desktop".data, "secret.png".data]]
        "../secret.png" =
      .sendFile ["Users".data, "u".data, "Desktop".data, "secret.png".data] := by
  refine ⟨by decide, by decide, by decide⟩

lemma splitSlash_no_slash (cs : List Char) (h : '/' ∉ cs) :
    splitSlash cs = [cs] := by
  induction cs with
  | nil => rfl
  | cons c cs ih =>
      have hc : ¬ c = '/' := fun hc => h (hc ▸ List.mem_cons_self c cs)
      have hcs : '/' ∉ cs := fun hm => h (List.mem_cons_of_mem c hm)
      simp only [splitSlash, if_neg hc, ih hcs]

lemma normSegments_plain (segs : List (List Char)) (acc : List (List Char))
    (h : ∀ seg ∈ segs, seg ≠ [] ∧ seg ≠ ['.'] ∧ seg ≠ ['.', '.']) :
    segs.foldl
      (fun acc seg =>
        if seg = [] ∨ seg = ['.'] then acc
        else if seg = ['.', '.'] then acc.dropLast
        else acc ++ [seg])
      acc = acc ++ segs := by
  induction segs generalizing acc with
  | nil => simp
  | cons seg rest ih =>
      obtain ⟨h1, h2, h3⟩ := h seg (List.mem_cons_self seg rest)
      have hrest : ∀ s ∈ rest, s ≠ [] ∧ s ≠ ['.'] ∧ s ≠ ['.', '.'] :=
        fun s hs => h s (List.mem_cons_of_mem seg hs)
      have hc : ¬(seg = [] ∨ seg = ['.']) := by tauto
      simp only [List.foldl_cons, if_neg hc, if_neg h3]
      rw [ih _ hrest, List.append_assoc]
      rfl

/-- **C8 (amended)**: the handler resolves `join(outputDir, filename)` with
path normalisation, and answers 404 whenever the resolved file does not
exist; but resolution is *not* restricted to the output directory in
general — it stays within the directory only for plain basenames.  For a
clean output directory and a filename that contains no `/` and is none of
the special segments (``, `.`, `..`), the resolved path is exactly the
filename inside the output directory. -/
theorem screenshot_path_resolution (dir : List (List Char))
    (existing : List (List (List Char))) (filename : String)
    (hdir : ∀ seg ∈ dir, seg ≠ [] ∧ seg ≠ ['.'] ∧ seg ≠ ['.', '.'])
    (hplain : '/' ∉ filename.data)
    (hspecial : filename.data ≠ [] ∧ filename.data ≠ ['.'] ∧
      filename.data ≠ ['.', '.']) :
    joinPath dir filename = dir ++ [filename.data] ∧
    List.IsPrefix dir (joinPath dir filename) ∧
    (existing.contains (joinPath dir filename) = false →
      getScreenshotHandler dir existing filename = .notFound) := by
  have hjoin : joinPath dir filename = dir ++ [filename.data] := by
    unfold joinPath
    rw [splitSlash_no_slash filename.data hplain]
    unfold normSegments
    rw [normSegments_plain (dir ++ [filename.data]) []
      (by
        intro seg hseg
        rcases List.mem_append.mp hseg with hs | hs
        · exact hdir seg hs
        · simpa using (List.mem_singleton.mp hs ▸ hspecial))]
    simp
  refine ⟨hjoin, ⟨[filename.data], hjoin.symm⟩, ?_⟩
  intro hex
  have hmem : joinPath dir filename ∉ existing := by simpa using hex
  simp [getScreenshotHandler, hmem]

/-- Witness for `screenshot_path_resolution`: the plain basename
`screenshot-1.png` resolves inside the output directory, and with no such
file on disk the handler answers 404. -/
theorem screenshot_path_resolution_witness :
    joinPath demoDir "screenshot-1.png" = demoDir ++ ["screenshot-1.png".data] ∧
    List.IsPrefix demoDir (joinPath demoDir "screenshot-1.png") ∧
    (([] : List (List (List Char))).contains (joinPath demoDir "screenshot-1.png") = false →
      getScreenshotHandler demoDir [] "screenshot-1.png" = .notFound) :=
  screenshot_path_resolution demoDir [] "screenshot-1.png"
    (by decide) (by decide) (by decide)

end ScreenshotScheduler
